import Mathlib

/-
Shallow embedding of the Metal Price Data Analyzer (src/app.py).

The program loads CSV price series, normalizes them to canonical
{date, price} columns (load_and_process_data) and filters the
resulting table by date range / month name / year (filter_data).
Tables are modelled as header lists plus rows of cells; pandas
DataFrames are value-typed here.  Exceptions caught by the code
(or raised out of it) are modelled with Option: `none` is the
"absent"/error result.  Decimal price values are modelled as
rationals; the claims do not depend on float rounding.
-/

namespace Analyzer

/-! ### Python string primitives, modelled over character lists so the
kernel can evaluate them (String.toNat? and friends do not reduce). -/

/-- Whitespace recognised by Python's str.strip(). -/
def isSpaceChar (c : Char) : Bool :=
  c = ' ' || c = '\t' || c = '\n' || c = '\r'

/-- Python str.strip(): drop leading and trailing whitespace. -/
def strTrim (s : String) : String :=
  ⟨((s.data.dropWhile isSpaceChar).reverse.dropWhile isSpaceChar).reverse⟩

/-- ASCII lower-casing of one character. -/
def lowerChar (c : Char) : Char :=
  if 'A' ≤ c && c ≤ 'Z' then Char.ofNat (c.toNat + 32) else c

/-- Python str.lower() (ASCII, which covers the headers involved). -/
def strLower (s : String) : String :=
  ⟨s.data.map lowerChar⟩

/-- Value of a decimal digit. -/
def digitVal? (c : Char) : Option Nat :=
  if '0' ≤ c && c ≤ '9' then some (c.toNat - '0'.toNat) else none

/-- Accumulate a decimal digit string. -/
def digitsAux : List Char → Nat → Option Nat
  | [], acc => some acc
  | c :: cs, acc =>
    match digitVal? c with
    | none => none
    | some d => digitsAux cs (acc * 10 + d)

/-- Value of a nonempty all-digit character list. -/
def digitsVal? (l : List Char) : Option Nat :=
  if l.isEmpty then none else digitsAux l 0

/-- Parse a nonempty digit string as a natural number. -/
def parseNat? (s : String) : Option Nat := digitsVal? s.data

/-- Python int(str): optional surrounding whitespace, optional sign, digits. -/
def parseInt? (s : String) : Option Int :=
  match (strTrim s).data with
  | '-' :: rest => (digitsVal? rest).map (fun n => -(n : Int))
  | '+' :: rest => (digitsVal? rest).map (fun n => (n : Int))
  | t => (digitsVal? t).map (fun n => (n : Int))

/-- Split a character list on a separator (Python str.split(sep)). -/
def splitOnCharList (sep : Char) : List Char → List (List Char)
  | [] => [[]]
  | c :: cs =>
    if c = sep then [] :: splitOnCharList sep cs
    else
      match splitOnCharList sep cs with
      | [] => [[c]]
      | g :: gs => (c :: g) :: gs

/-- Split a string on a one-character separator. -/
def splitStr (sep : Char) (s : String) : List String :=
  (splitOnCharList sep s.data).map (fun l => ⟨l⟩)

/-- Fractional value of a digit list b as 0.b. -/
def fracVal? (l : List Char) : Option Rat :=
  (digitsVal? l).map (fun n => (n : Rat) / ((10 : Rat) ^ l.length))

/-- Unsigned decimal literal: digits with an optional single point. -/
def parseUnsigned? (l : List Char) : Option Rat :=
  match splitOnCharList '.' l with
  | [a] => (digitsVal? a).map (fun n => (n : Rat))
  | [a, b] =>
    if a.isEmpty && b.isEmpty then none
    else do
      let ia ← if a.isEmpty then some 0 else digitsVal? a
      let fb ← if b.isEmpty then some (0 : Rat) else fracVal? b
      pure ((ia : Rat) + fb)
  | _ => none

/-- Models pd.to_numeric(cell, errors=coerce) on a string cell: numeric
strings (optional sign, decimal point, surrounding whitespace) parse,
everything else coerces to missing.  Exponent notation is omitted; no
claim depends on it. -/
def parseRat? (s : String) : Option Rat :=
  match (strTrim s).data with
  | '-' :: rest => (parseUnsigned? rest).map (fun q => -q)
  | '+' :: rest => parseUnsigned? rest
  | t => parseUnsigned? t

/-! ### Calendar dates -/

/-- A calendar date at day granularity. -/
structure Date where
  year : Nat
  month : Nat
  day : Nat
deriving DecidableEq, Repr

/-- Chronological order on dates (lexicographic year, month, day),
matching comparison of pandas Timestamps. -/
def dateLe (a b : Date) : Bool :=
  if a.year < b.year then true
  else if b.year < a.year then false
  else if a.month < b.month then true
  else if b.month < a.month then false
  else a.day ≤ b.day

/-- Day-first validity bounds used when parsing (pandas validates per
month length; the claims do not exercise that difference). -/
def mkDate? (y m d : Nat) : Option Date :=
  if 1 ≤ m && m ≤ 12 && 1 ≤ d && d ≤ 31 then some ⟨y, m, d⟩ else none

/-- Models pd.to_datetime(cell, dayfirst=True) for the delimited date
formats the series use: slash dates read day-first, dash dates read as
ISO year-month-day when the leading field has four digits and day-first
otherwise.  Failure is `none` (pandas raises). -/
def parseDate? (s : String) : Option Date :=
  let t := strTrim s
  match splitStr '/' t with
  | [d, m, y] => do
    let dv ← parseNat? d
    let mv ← parseNat? m
    let yv ← parseNat? y
    mkDate? yv mv dv
  | _ =>
    match splitStr '-' t with
    | [a, m, b] =>
      if a.data.length = 4 then do
        let yv ← parseNat? a
        let mv ← parseNat? m
        let dv ← parseNat? b
        mkDate? yv mv dv
      else do
        let dv ← parseNat? a
        let mv ← parseNat? m
        let yv ← parseNat? b
        mkDate? yv mv dv
    | _ => none

/-- datetime.strptime(name, percent-B).month: full English month names,
case-sensitive; anything else raises (modelled as none). -/
def monthNum? (s : String) : Option Nat :=
  if s = "January" then some 1
  else if s = "February" then some 2
  else if s = "March" then some 3
  else if s = "April" then some 4
  else if s = "May" then some 5
  else if s = "June" then some 6
  else if s = "July" then some 7
  else if s = "August" then some 8
  else if s = "September" then some 9
  else if s = "October" then some 10
  else if s = "November" then some 11
  else if s = "December" then some 12
  else none

/-! ### Tables (pandas DataFrames) -/

/-- One table cell: a raw string from the CSV, a parsed date, or a
coerced numeric value (`num none` is NaN / missing). -/
inductive Cell where
  | str (s : String)
  | date (d : Date)
  | num (q : Option Rat)
deriving DecidableEq, Repr

/-- A DataFrame: ordered column labels plus rows of cells, each row
aligned positionally with the labels. -/
structure Frame where
  headers : List String
  rows : List (List Cell)
deriving DecidableEq, Repr

/-- The cell of a row under the first column label equal to n. -/
def getCell? (n : String) : List String → List Cell → Option Cell
  | h :: hs, c :: cs => if h = n then some c else getCell? n hs cs
  | _, _ => none

/-- Like getCell? with a blank default (unused on well-formed frames). -/
def getCellD (n : String) (hs : List String) (r : List Cell) : Cell :=
  (getCell? n hs r).getD (Cell.str "")

/-- Column access df[n] as a list of cells, one per row. -/
def getCol (n : String) (f : Frame) : List Cell :=
  f.rows.map (getCellD n f.headers)

/-- Replace the cells at every position labelled n (pandas column
assignment replaces the labelled column). -/
def setCells (n : String) (c : Cell) : List String → List Cell → List Cell
  | h :: hs, x :: xs => (if h = n then c else x) :: setCells n c hs xs
  | _, xs => xs

/-- Column assignment df[n] = cs: replace the column labelled n when it
exists, otherwise append it as a new last column. -/
def setCol (f : Frame) (n : String) (cs : List Cell) : Frame :=
  if f.headers.contains n then
    { f with rows := List.zipWith (fun r c => setCells n c f.headers r) f.rows cs }
  else
    { headers := f.headers ++ [n], rows := List.zipWith (fun r c => r ++ [c]) f.rows cs }

/-- Remove the cells at every position labelled n. -/
def dropCells (n : String) : List String → List Cell → List Cell
  | h :: hs, x :: xs => if h = n then dropCells n hs xs else x :: dropCells n hs xs
  | _, xs => xs

/-- df.drop(columns=[n]): remove every column labelled n. -/
def dropCol (f : Frame) (n : String) : Frame :=
  { headers := f.headers.filter (fun h => h != n),
    rows := f.rows.map (dropCells n f.headers) }

/-- The parsed date of a row, when its date cell holds one. -/
def rowDate? (hs : List String) (r : List Cell) : Option Date :=
  match getCell? "date" hs r with
  | some (Cell.date d) => some d
  | _ => none

/-- Sort key for sort_values(date); the default is unreachable on
loader output, where every date cell holds a date. -/
def dateKey (hs : List String) (r : List Cell) : Date :=
  (rowDate? hs r).getD ⟨0, 0, 0⟩

/-- Row comparison used by the date sort. -/
def rowLe (hs : List String) (r1 r2 : List Cell) : Bool :=
  dateLe (dateKey hs r1) (dateKey hs r2)

/-- Insert into a sorted list (generic helper for the date sort). -/
def insertBy (le : α → α → Bool) (a : α) : List α → List α
  | [] => [a]
  | b :: t => if le a b then a :: b :: t else b :: insertBy le a t

/-- Insertion sort by a boolean comparison. -/
def sortBy (le : α → α → Bool) : List α → List α
  | [] => []
  | a :: t => insertBy le a (sortBy le t)

/-- df.sort_values(date).reset_index(drop=True): raises (none) when the
date column is missing; reset_index is a no-op in this model.  The
pandas sort is not guaranteed stable, so any date-sorted permutation of
the rows is a faithful result; insertion sort is the representative
used here. -/
def sortFrame? (f : Frame) : Option Frame :=
  if f.headers.contains "date" then
    some { f with rows := sortBy (rowLe f.headers) f.rows }
  else none

/-! ### Loader (load_and_process_data, src/app.py lines 19-47) -/

/-- A parsed CSV file: header row plus data rows of raw strings. -/
structure Csv where
  headers : List String
  rows : List (List String)
deriving DecidableEq, Repr

/-- Rectangularity of a CSV: every row as wide as the header. -/
def csvWF (c : Csv) : Bool :=
  c.rows.all (fun r => r.length == c.headers.length)

/-- pd.read_csv followed by df.columns.str.strip(). -/
def rawFrame (c : Csv) : Frame :=
  { headers := c.headers.map strTrim, rows := c.rows.map (fun r => r.map Cell.str) }

/-- pd.to_datetime on a single cell. -/
def cellDate? (c : Cell) : Option Date :=
  match c with
  | Cell.str s => parseDate? s
  | Cell.date d => some d
  | Cell.num _ => none

/-- pd.to_datetime over a whole column: every cell must parse,
otherwise the conversion raises. -/
def cellsDates? : List Cell → Option (List Date)
  | [] => some []
  | c :: cs =>
    match cellDate? c with
    | none => none
    | some d =>
      match cellsDates? cs with
      | none => none
      | some ds => some (d :: ds)

/-- pd.to_numeric(errors=coerce) on a single cell. -/
def toNumeric? (c : Cell) : Option Rat :=
  match c with
  | Cell.str s => parseRat? s
  | Cell.num q => q
  | Cell.date _ => none

/-- The date-normalization step: find a header whose lower-casing is
"date"; parse that column day-first into a canonical date column and
drop the differently-named source column; with no such header, parse
the first column (df.iloc[:, 0]) instead.  Any cell that fails to
parse raises, which the caller catches (none). -/
def addDateCol? (f : Frame) : Option Frame :=
  match f.headers.filter (fun h => strLower h == "date") with
  | c :: _ =>
    match cellsDates? (getCol c f) with
    | none => none
    | some ds =>
      let g := setCol f "date" (ds.map Cell.date)
      some (if c ≠ "date" then dropCol g c else g)
  | [] =>
    match f.headers with
    | [] => none
    | h0 :: _ =>
      match cellsDates? (getCol h0 f) with
      | none => none
      | some ds => some (setCol f "date" (ds.map Cell.date))

/-- The price-normalization step: find a header whose lower-casing is
"price"; coerce that column to numeric (failures become missing) into
a canonical price column, dropping the differently-named source
column; with no such header the frame is unchanged. -/
def addPriceCol (f : Frame) : Frame :=
  match f.headers.filter (fun h => strLower h == "price") with
  | p :: _ =>
    let g := setCol f "price" ((getCol p f).map (fun c => Cell.num (toNumeric? c)))
    if p ≠ "price" then dropCol g p else g
  | [] => f

/-- load_and_process_data: the filesystem is a map from path to parsed
CSV content; a falsy path or a missing file yields None, and any
exception inside the try block (date parsing, sorting) is caught and
also yields None after reporting. -/
def load_and_process_data (fs : String → Option Csv) (path : String) : Option Frame :=
  if path = "" then none
  else
    match fs path with
    | none => none
    | some csv =>
      match addDateCol? (rawFrame csv) with
      | none => none
      | some f => sortFrame? (addPriceCol f)

/-! ### Filter engine (filter_data, src/app.py lines 49-67) -/

/-- The date column is usable by comparisons and the .dt accessor:
it exists and every row holds a parsed date (datetime64 dtype).
Otherwise those operations raise. -/
def validDates (f : Frame) : Bool :=
  f.headers.contains "date" && f.rows.all (fun r => (rowDate? f.headers r).isSome)

/-- Row selection by a boolean mask (df[mask]). -/
def keepRows (f : Frame) (p : List Cell → Bool) : Frame :=
  { f with rows := f.rows.filter p }

/-- A predicate on dates lifted to rows; rows without a parsed date
fail the mask (comparisons with NaT are false). -/
def liftPred (p : Date → Bool) (hs : List String) (r : List Cell) : Bool :=
  match rowDate? hs r with
  | some d => p d
  | none => false

/-- One mask-selection on the date column: raises (none) unless the
date column is usable, otherwise keeps the rows whose date satisfies
the predicate. -/
def applyPred (p : Date → Bool) (f : Frame) : Option Frame :=
  if validDates f then some (keepRows f (liftPred p f.headers)) else none

/-- The date-range filter: inactive when the range is absent, else an
inclusive-bounds mask on the date column. -/
def rangeStep (dr : Option (Date × Date)) (f : Frame) : Option Frame :=
  match dr with
  | none => some f
  | some (a, b) => applyPred (fun d => dateLe a d && dateLe d b) f

/-- The month filter: inactive when absent, empty, or the All
sentinel; raises when the name is not a full month name; else a mask
comparing the month number. -/
def monthStep (m : Option String) (f : Frame) : Option Frame :=
  match m with
  | none => some f
  | some s =>
    if s = "" || s = "All" then some f
    else
      match monthNum? s with
      | none => none
      | some n => applyPred (fun d => d.month == n) f

/-- The year filter: inactive when absent, empty, or the All sentinel;
raises when int() fails on the selection; else a mask comparing the
year. -/
def yearStep (y : Option String) (f : Frame) : Option Frame :=
  match y with
  | none => some f
  | some s =>
    if s = "" || s = "All" then some f
    else
      match parseInt? s with
      | none => none
      | some z => applyPred (fun d => (d.year : Int) == z) f

/-- filter_data: df.copy() (a no-op on values), then the three
optional filters in the implemented order. -/
def filter_data (df : Frame) (dr : Option (Date × Date)) (m y : Option String) :
    Option Frame :=
  ((rangeStep dr df).bind (monthStep m)).bind (yearStep y)

/-! ### Derived observations used by the claims -/

/-- Non-decreasing chain of dates. -/
def isSortedLe : List Date → Bool
  | [] => true
  | [_] => true
  | a :: b :: t => dateLe a b && isSortedLe (b :: t)

/-- The frame is sorted non-decreasing by its canonical date column. -/
def sortedByDate (f : Frame) : Bool :=
  f.headers.contains "date" && isSortedLe (f.rows.map (dateKey f.headers))

/-- The rows whose date lies in the given month of the given year. -/
def rowsWithMonthYear (f : Frame) (m y : Nat) : List (List Cell) :=
  f.rows.filter (fun r =>
    match rowDate? f.headers r with
    | some d => d.month == m && d.year == y
    | none => false)

/-- Store-passing rendering of filter_data for the aliasing claim:
frames live in a store addressed by handles; df.copy() plus mask
selection build a fresh frame, appended to the store, and the handle
of that fresh frame is returned. -/
def filterHeap (heap : List Frame) (h : Nat) (dr : Option (Date × Date))
    (m y : Option String) : Option (List Frame × Nat) :=
  match heap[h]? with
  | none => none
  | some df =>
    match filter_data df dr m y with
    | none => none
    | some r => some (heap ++ [r], heap.length)

/-- The month argument does not raise: unset, inactive, or a genuine
month name (the UI only offers the twelve names and the sentinel). -/
def monthArgOk (m : Option String) : Bool :=
  match m with
  | none => true
  | some s => s = "" || s = "All" || (monthNum? s).isSome

/-- The year argument does not raise: unset, inactive, or parseable by
int() (the UI only offers years read off the data). -/
def yearArgOk (y : Option String) : Bool :=
  match y with
  | none => true
  | some s => s = "" || s = "All" || (parseInt? s).isSome

/-- Rectangularity of a frame: every row as wide as the header list. -/
def frameWF (f : Frame) : Bool :=
  f.rows.all (fun r => r.length == f.headers.length)

/-- The raw cells of the detected price source column of a CSV, before
numeric coercion. -/
def priceSourceCol (csv : Csv) (p : String) : List Cell :=
  getCol p (rawFrame csv)

/-! ### Concrete fixtures used by witnesses and counterexamples -/

/-- The four-row table of the spec's month/year filtering example. -/
def dfSample : Frame :=
  ⟨["date", "price"],
   [[Cell.date ⟨2023, 3, 1⟩, Cell.num (some 10)],
    [Cell.date ⟨2023, 3, 15⟩, Cell.num (some 11)],
    [Cell.date ⟨2022, 3, 10⟩, Cell.num (some 12)],
    [Cell.date ⟨2023, 4, 1⟩, Cell.num (some 13)]]⟩

/-- The March-2023 subset of dfSample. -/
def dfSampleMarch : List (List Cell) :=
  [[Cell.date ⟨2023, 3, 1⟩, Cell.num (some 10)],
   [Cell.date ⟨2023, 3, 15⟩, Cell.num (some 11)]]

/-- Ten rows in scrambled date order, with one non-numeric price. -/
def csvTen : Csv :=
  ⟨[" Date ", "Price"],
   [["03/01/2023", "3"], ["01/01/2023", "1"], ["02/01/2023", "2"],
    ["05/01/2023", "N/A"], ["04/01/2023", "4"], ["07/01/2023", "7"],
    ["06/01/2023", "6"], ["09/01/2023", "9"], ["08/01/2023", "8"],
    ["10/01/2023", "10"]]⟩

/-- A filesystem holding csvTen. -/
def fsTen : String → Option Csv :=
  fun p => if p = "prices.csv" then some csvTen else none

/-- The normalized form of csvTen. -/
def dfTen : Frame :=
  ⟨["date", "price"],
   [[Cell.date ⟨2023, 1, 1⟩, Cell.num (some 1)],
    [Cell.date ⟨2023, 1, 2⟩, Cell.num (some 2)],
    [Cell.date ⟨2023, 1, 3⟩, Cell.num (some 3)],
    [Cell.date ⟨2023, 1, 4⟩, Cell.num (some 4)],
    [Cell.date ⟨2023, 1, 5⟩, Cell.num none],
    [Cell.date ⟨2023, 1, 6⟩, Cell.num (some 6)],
    [Cell.date ⟨2023, 1, 7⟩, Cell.num (some 7)],
    [Cell.date ⟨2023, 1, 8⟩, Cell.num (some 8)],
    [Cell.date ⟨2023, 1, 9⟩, Cell.num (some 9)],
    [Cell.date ⟨2023, 1, 10⟩, Cell.num (some 10)]]⟩

/-- The days 3 to 7 subset of dfTen. -/
def dfTenMid : Frame :=
  ⟨["date", "price"],
   [[Cell.date ⟨2023, 1, 3⟩, Cell.num (some 3)],
    [Cell.date ⟨2023, 1, 4⟩, Cell.num (some 4)],
    [Cell.date ⟨2023, 1, 5⟩, Cell.num none],
    [Cell.date ⟨2023, 1, 6⟩, Cell.num (some 6)],
    [Cell.date ⟨2023, 1, 7⟩, Cell.num (some 7)]]⟩

/-- A filesystem holding a CSV whose only column is a date-bearing
column not named date: the loader falls back to the first column. -/
def fsDay : String → Option Csv :=
  fun p => if p = "series.csv" then some ⟨["Day"], [["01/02/2023"]]⟩ else none

/-- What the loader produces from fsDay: the source column survives
next to the canonical date column, and no price column appears. -/
def dfDay : Frame :=
  ⟨["Day", "date"], [[Cell.str "01/02/2023", Cell.date ⟨2023, 2, 1⟩]]⟩

/-- A filesystem with no files at all. -/
def fsAbsent : String → Option Csv := fun _ => none

/-! ## Lemma layer -/

/-! ### The date order is a decidable total preorder -/

theorem dateLe_iff (a b : Date) :
    dateLe a b = true ↔
      (a.year < b.year ∨ (a.year = b.year ∧
        (a.month < b.month ∨ (a.month = b.month ∧ a.day ≤ b.day)))) := by
  unfold dateLe
  split_ifs <;>
    simp only [decide_eq_true_eq, eq_self_iff_true, Bool.false_eq_true, true_iff,
      false_iff, not_or, not_and, not_lt, not_le] <;>
    omega

theorem dateLe_trans (a b c : Date) (h1 : dateLe a b = true) (h2 : dateLe b c = true) :
    dateLe a c = true := by
  rw [dateLe_iff] at *
  omega

theorem dateLe_total (a b : Date) : (dateLe a b || dateLe b a) = true := by
  rcases Bool.eq_false_or_eq_true (dateLe a b) with h | h
  · simp [h]
  · have hnot : ¬ (a.year < b.year ∨ (a.year = b.year ∧
        (a.month < b.month ∨ (a.month = b.month ∧ a.day ≤ b.day)))) := by
      rw [← dateLe_iff, h]
      simp
    have hb : dateLe b a = true := by
      rw [dateLe_iff]
      omega
    simp [hb]

/-! ### Insertion sort: permutation and sortedness -/

theorem insertBy_perm (le : α → α → Bool) (a : α) (l : List α) :
    (insertBy le a l).Perm (a :: l) := by
  induction l with
  | nil => simp [insertBy]
  | cons b t ih =>
    simp only [insertBy]
    split
    · exact List.Perm.refl _
    · exact (ih.cons b).trans (List.Perm.swap a b t)

theorem sortBy_perm (le : α → α → Bool) (l : List α) : (sortBy le l).Perm l := by
  induction l with
  | nil => simp [sortBy]
  | cons a t ih =>
    exact ((insertBy_perm le a (sortBy le t)).trans (ih.cons a))

theorem pairwise_insertBy (le : α → α → Bool)
    (htrans : ∀ a b c, le a b = true → le b c = true → le a c = true)
    (htot : ∀ a b, (le a b || le b a) = true) (a : α) (l : List α)
    (hl : l.Pairwise (fun x y => le x y = true)) :
    (insertBy le a l).Pairwise (fun x y => le x y = true) := by
  induction l with
  | nil => simp [insertBy]
  | cons b t ih =>
    rcases List.pairwise_cons.mp hl with ⟨hbt, htp⟩
    simp only [insertBy]
    split
    · rename_i hab
      refine List.pairwise_cons.mpr ⟨?_, hl⟩
      intro x hx
      rcases List.mem_cons.mp hx with rfl | hx
      · exact hab
      · exact htrans a b x hab (hbt x hx)
    · rename_i hab
      have hba : le b a = true := by
        have h2 := htot a b
        have hab2 : le a b = false := Bool.eq_false_iff.mpr hab
        rw [hab2, Bool.false_or] at h2
        exact h2
      refine List.pairwise_cons.mpr ⟨?_, ih htp⟩
      intro x hx
      have hx2 := (insertBy_perm le a t).mem_iff.mp hx
      rcases List.mem_cons.mp hx2 with rfl | hx3
      · exact hba
      · exact hbt x hx3

theorem pairwise_sortBy (le : α → α → Bool)
    (htrans : ∀ a b c, le a b = true → le b c = true → le a c = true)
    (htot : ∀ a b, (le a b || le b a) = true) (l : List α) :
    (sortBy le l).Pairwise (fun x y => le x y = true) := by
  induction l with
  | nil => simp [sortBy]
  | cons a t ih => exact pairwise_insertBy le htrans htot a (sortBy le t) ih

/-! ### Structure of the three filter steps -/

theorem keepRows_headers (f : Frame) (p : List Cell → Bool) :
    (keepRows f p).headers = f.headers := rfl

theorem validDates_keepRows (f : Frame) (p : List Cell → Bool)
    (hv : validDates f = true) : validDates (keepRows f p) = true := by
  unfold validDates at *
  rw [Bool.and_eq_true] at hv ⊢
  refine ⟨hv.1, ?_⟩
  rw [List.all_eq_true] at hv ⊢
  intro r hr
  exact hv.2 r (List.mem_of_mem_filter hr)

theorem applyPred_some (p : Date → Bool) (f : Frame) (hv : validDates f = true) :
    applyPred p f = some (keepRows f (liftPred p f.headers)) := by
  unfold applyPred
  rw [if_pos hv]

theorem applyPred_none (p : Date → Bool) (f : Frame) (hv : validDates f = false) :
    applyPred p f = none := by
  unfold applyPred
  rw [if_neg]
  simp [hv]

/-- The two mask selections commute. -/
theorem applyPred_comm (p q : Date → Bool) (f : Frame) :
    (applyPred p f).bind (applyPred q) = (applyPred q f).bind (applyPred p) := by
  rcases Bool.eq_false_or_eq_true (validDates f) with hv | hv
  · have h1 : validDates (keepRows f (liftPred p f.headers)) = true :=
      validDates_keepRows f _ hv
    have h2 : validDates (keepRows f (liftPred q f.headers)) = true :=
      validDates_keepRows f _ hv
    rw [applyPred_some p f hv, applyPred_some q f hv, Option.some_bind, Option.some_bind,
      applyPred_some q _ h1, applyPred_some p _ h2]
    simp only [keepRows_headers, keepRows, Option.some.injEq]
    rw [List.filter_filter, List.filter_filter]
    congr 1
    refine List.filter_congr ?_
    intro r _
    exact Bool.and_comm _ _
  · rw [applyPred_none p f hv, applyPred_none q f hv, Option.none_bind, Option.none_bind]

/-- Canonical shape of a filter step: the identity, a raised
exception, or a mask selection. -/
def StepShape (S : Frame → Option Frame) : Prop :=
  (∀ f, S f = some f) ∨ (∀ f, S f = none) ∨ (∃ p, ∀ f, S f = applyPred p f)

theorem rangeStep_shape (dr : Option (Date × Date)) : StepShape (rangeStep dr) := by
  cases dr with
  | none => exact Or.inl (fun f => rfl)
  | some ab =>
    exact Or.inr (Or.inr ⟨fun d => dateLe ab.1 d && dateLe d ab.2, fun f => rfl⟩)

theorem monthStep_shape (m : Option String) : StepShape (monthStep m) := by
  cases m with
  | none => exact Or.inl (fun f => rfl)
  | some s =>
    by_cases hs : s = "" || s = "All"
    · exact Or.inl (fun f => by simp [monthStep, hs])
    · cases hn : monthNum? s with
      | none => exact Or.inr (Or.inl (fun f => by simp [monthStep, hs, hn]))
      | some n =>
        exact Or.inr (Or.inr ⟨fun d => d.month == n, fun f => by simp [monthStep, hs, hn]⟩)

theorem yearStep_shape (y : Option String) : StepShape (yearStep y) := by
  cases y with
  | none => exact Or.inl (fun f => rfl)
  | some s =>
    by_cases hs : s = "" || s = "All"
    · exact Or.inl (fun f => by simp [yearStep, hs])
    · cases hz : parseInt? s with
      | none => exact Or.inr (Or.inl (fun f => by simp [yearStep, hs, hz]))
      | some z =>
        exact Or.inr (Or.inr ⟨fun d => (d.year : Int) == z, fun f => by simp [yearStep, hs, hz]⟩)

/-- Any two filter steps commute. -/
theorem step_comm (S T : Frame → Option Frame) (hS : StepShape S) (hT : StepShape T)
    (f : Frame) : (S f).bind T = (T f).bind S := by
  rcases hS with hS | hS | ⟨p, hS⟩ <;> rcases hT with hT | hT | ⟨q, hT⟩
  · rw [hS f, Option.some_bind, hT f, Option.some_bind, hS f]
  · rw [hS f, Option.some_bind, hT f, Option.none_bind]
  · rw [hS f, Option.some_bind, hT f]
    cases applyPred q f with
    | none => rfl
    | some g => rw [Option.some_bind, hS g]
  · rw [hS f, Option.none_bind, hT f, Option.some_bind, hS f]
  · rw [hS f, Option.none_bind, hT f, Option.none_bind]
  · rw [hS f, Option.none_bind, hT f]
    cases applyPred q f with
    | none => rfl
    | some g => rw [Option.some_bind, hS g]
  · rw [hS f, hT f, Option.some_bind, hS f]
    cases applyPred p f with
    | none => rfl
    | some g => rw [Option.some_bind, hT g]
  · rw [hS f, hT f, Option.none_bind]
    cases applyPred p f with
    | none => rfl
    | some g => rw [Option.some_bind, hT g]
  · have hSe : S = applyPred p := funext hS
    have hTe : T = applyPred q := funext hT
    rw [hSe, hTe]
    exact applyPred_comm p q f

/-- Pointwise commutation lifted under an earlier step. -/
theorem bind_step_comm (S T : Frame → Option Frame) (hS : StepShape S) (hT : StepShape T)
    (o : Option Frame) : (o.bind S).bind T = (o.bind T).bind S := by
  cases o with
  | none => rfl
  | some f => exact step_comm S T hS hT f

/-- A step that returns keeps the headers and selects a subsequence of
the rows. -/
theorem step_result (S : Frame → Option Frame) (hS : StepShape S) (f g : Frame)
    (h : S f = some g) : g.headers = f.headers ∧ List.Sublist g.rows f.rows := by
  rcases hS with hS | hS | ⟨p, hS⟩
  · rw [hS f] at h
    cases h
    exact ⟨rfl, List.Sublist.refl _⟩
  · rw [hS f] at h
    cases h
  · rw [hS f] at h
    rcases Bool.eq_false_or_eq_true (validDates f) with hv | hv
    · rw [applyPred_some _ _ hv] at h
      cases h
      exact ⟨rfl, List.filter_sublist _⟩
    · rw [applyPred_none _ _ hv] at h
      cases h

/-! ### Sortedness as a chain of comparisons -/

instance : IsTrans Date (fun a b => dateLe a b = true) :=
  ⟨fun a b c => dateLe_trans a b c⟩

theorem isSortedLe_iff_chain (l : List Date) :
    isSortedLe l = true ↔ List.Chain' (fun a b => dateLe a b = true) l := by
  induction l with
  | nil => simp [isSortedLe]
  | cons a t ih =>
    cases t with
    | nil => simp [isSortedLe]
    | cons b t2 =>
      rw [List.chain'_cons]
      simp only [isSortedLe, Bool.and_eq_true]
      exact and_congr Iff.rfl ih

theorem isSortedLe_iff_pairwise (l : List Date) :
    isSortedLe l = true ↔ l.Pairwise (fun a b => dateLe a b = true) := by
  rw [isSortedLe_iff_chain]
  exact List.chain'_iff_pairwise

/-! ### Small helpers for the claim proofs -/

theorem intCast_beq (n m : Nat) : ((n : Int) == (m : Int)) = (n == m) := by
  by_cases h : n = m
  · subst h
    simp
  · have h1 : (n == m) = false := beq_eq_false_iff_ne.mpr h
    have h2 : ((n : Int) == (m : Int)) = false := beq_eq_false_iff_ne.mpr (by exact_mod_cast h)
    rw [h1, h2]

theorem validDates_contains (f : Frame) (hv : validDates f = true) :
    f.headers.contains "date" = true := by
  unfold validDates at hv
  rw [Bool.and_eq_true] at hv
  exact hv.1

theorem applyPred_nil (p : Date → Bool) (hs : List String)
    (hc : hs.contains "date" = true) :
    applyPred p ⟨hs, []⟩ = some ⟨hs, []⟩ := by
  have hv : validDates ⟨hs, []⟩ = true := by
    unfold validDates
    rw [Bool.and_eq_true]
    exact ⟨hc, rfl⟩
  rw [applyPred_some _ _ hv]
  rfl

theorem monthStep_nil (m : Option String) (hs : List String)
    (hm : monthArgOk m = true) (hc : hs.contains "date" = true) :
    monthStep m ⟨hs, []⟩ = some ⟨hs, []⟩ := by
  cases m with
  | none => rfl
  | some s =>
    show (if (s = "" || s = "All") = true then some (⟨hs, []⟩ : Frame)
      else match monthNum? s with
        | none => none
        | some n => applyPred (fun d => d.month == n) ⟨hs, []⟩) = some ⟨hs, []⟩
    by_cases hsAll : (s = "" || s = "All") = true
    · rw [if_pos hsAll]
    · rw [if_neg hsAll]
      cases hn : monthNum? s with
      | none =>
        exfalso
        unfold monthArgOk at hm
        dsimp only at hm
        rw [hn] at hm
        simp only [Option.isSome_none, Bool.or_false] at hm
        exact hsAll hm
      | some n => exact applyPred_nil _ hs hc

theorem yearStep_nil (y : Option String) (hs : List String)
    (hy : yearArgOk y = true) (hc : hs.contains "date" = true) :
    yearStep y ⟨hs, []⟩ = some ⟨hs, []⟩ := by
  cases y with
  | none => rfl
  | some s =>
    show (if (s = "" || s = "All") = true then some (⟨hs, []⟩ : Frame)
      else match parseInt? s with
        | none => none
        | some z => applyPred (fun d => (d.year : Int) == z) ⟨hs, []⟩) = some ⟨hs, []⟩
    by_cases hsAll : (s = "" || s = "All") = true
    · rw [if_pos hsAll]
    · rw [if_neg hsAll]
      cases hn : parseInt? s with
      | none =>
        exfalso
        unfold yearArgOk at hy
        dsimp only at hy
        rw [hn] at hy
        simp only [Option.isSome_none, Bool.or_false] at hy
        exact hsAll hy
      | some z => exact applyPred_nil _ hs hc

/-! ## Claims -/

/-- C3: filter_data with no date range and with month and year unset or
equal to the All sentinel returns the input table unchanged. -/
theorem C3_no_active_filters_identity (df : Frame) (m y : Option String)
    (hm : m = none ∨ m = some "All") (hy : y = none ∨ y = some "All") :
    filter_data df none m y = some df := by
  rcases hm with rfl | rfl <;> rcases hy with rfl | rfl <;> rfl

theorem C3_no_active_filters_identity_witness :
    ((some "All" : Option String) = none ∨ (some "All" : Option String) = some "All") ∧
      filter_data dfSample none (some "All") (some "All") = some dfSample :=
  ⟨Or.inr rfl,
   C3_no_active_filters_identity dfSample (some "All") (some "All") (Or.inr rfl) (Or.inr rfl)⟩

/-- C5: loading a path that the filesystem does not hold returns the
absent signal none, which is distinguishable from any successfully
loaded frame, in particular from an empty table. -/
theorem C5_missing_file_absent (fs : String → Option Csv) (path : String)
    (h : fs path = none) :
    load_and_process_data fs path = none ∧
      ∀ f : Frame, (some f : Option Frame) ≠ none := by
  constructor
  · unfold load_and_process_data
    by_cases hp : path = ""
    · rw [if_pos hp]
    · rw [if_neg hp, h]
  · intro f
    exact Option.some_ne_none f

theorem C5_missing_file_absent_witness :
    fsAbsent "LME_Copper.csv" = none ∧
      (load_and_process_data fsAbsent "LME_Copper.csv" = none ∧
        ∀ f : Frame, (some f : Option Frame) ≠ none) :=
  ⟨rfl, C5_missing_file_absent fsAbsent "LME_Copper.csv" rfl⟩

/-- C9: in the store-passing rendering, a returning filter_data call
leaves every frame already in the store unchanged (in particular the
input frame, whose handle is valid) and hands back a fresh handle
distinct from the input handle: the result is a new derived table, not
an alias of the source. -/
theorem C9_filter_no_mutation (heap : List Frame) (h : Nat)
    (dr : Option (Date × Date)) (m y : Option String)
    (heap2 : List Frame) (h2 : Nat)
    (hc : filterHeap heap h dr m y = some (heap2, h2)) :
    (∀ k, k < heap.length → heap2[k]? = heap[k]?) ∧ h < heap.length ∧ h2 ≠ h := by
  unfold filterHeap at hc
  cases hg : heap[h]? with
  | none =>
    rw [hg] at hc
    cases hc
  | some df =>
    rw [hg] at hc
    dsimp only at hc
    have hh : h < heap.length := by
      by_contra hlt
      rw [List.getElem?_eq_none (Nat.le_of_not_lt hlt)] at hg
      cases hg
    cases hf : filter_data df dr m y with
    | none =>
      rw [hf] at hc
      cases hc
    | some r =>
      rw [hf] at hc
      cases hc
      refine ⟨?_, hh, ?_⟩
      · intro k hk
        exact List.getElem?_append_left hk
      · exact Nat.ne_of_gt hh

theorem C9_filter_no_mutation_witness :
    filterHeap [dfSample] 0 none none none = some ([dfSample, dfSample], 1) ∧
      ((∀ k, k < [dfSample].length → [dfSample, dfSample][k]? = [dfSample][k]?) ∧
        0 < [dfSample].length ∧ 1 ≠ 0) :=
  ⟨rfl, C9_filter_no_mutation [dfSample] 0 none none none [dfSample, dfSample] 1 rfl⟩

/-- C1: on a normalized table, filtering with month March and year 2023
and no date range returns exactly the rows whose date lies in March of
2023: the filters conjoin. -/
theorem C1_march_2023_exact (df : Frame) (hv : validDates df = true) :
    filter_data df none (some "March") (some "2023") =
      some ⟨df.headers, rowsWithMonthYear df 3 2023⟩ := by
  have hm : monthStep (some "March") df = applyPred (fun d => d.month == 3) df := rfl
  have hy : ∀ g : Frame,
      yearStep (some "2023") g = applyPred (fun d => (d.year : Int) == (2023 : Int)) g :=
    fun g => rfl
  unfold filter_data
  rw [show rangeStep none df = some df from rfl, Option.some_bind, hm,
    applyPred_some _ _ hv, Option.some_bind, hy,
    applyPred_some _ _ (validDates_keepRows _ _ hv)]
  simp only [keepRows_headers, keepRows, Option.some.injEq, Frame.mk.injEq]
  refine ⟨trivial, ?_⟩
  rw [List.filter_filter]
  unfold rowsWithMonthYear
  refine List.filter_congr ?_
  intro r _
  unfold liftPred
  cases rowDate? df.headers r with
  | none => rfl
  | some d =>
    dsimp only
    have hyb : ((d.year : Int) == (2023 : Int)) = (d.year == 2023) := by
      rw [show (2023 : Int) = ((2023 : Nat) : Int) from rfl]
      exact intCast_beq d.year 2023
    rw [hyb]
    exact Bool.and_comm _ _

theorem C1_march_2023_exact_witness :
    validDates dfSample = true ∧
      filter_data dfSample none (some "March") (some "2023") =
        some ⟨dfSample.headers, rowsWithMonthYear dfSample 3 2023⟩ ∧
      rowsWithMonthYear dfSample 3 2023 = dfSampleMarch :=
  ⟨by decide, C1_march_2023_exact dfSample (by decide), by decide⟩

/-- C7: with an inverted date range (start after end) active, the
filter returns the empty table whenever the table is normalized and the
month and year arguments do not themselves raise. -/
theorem C7_inverted_range_empty (df : Frame) (a b : Date) (m y : Option String)
    (hv : validDates df = true) (hab : dateLe a b = false)
    (hm : monthArgOk m = true) (hy : yearArgOk y = true) :
    filter_data df (some (a, b)) m y = some ⟨df.headers, []⟩ := by
  have hc : df.headers.contains "date" = true := validDates_contains df hv
  have hr : rangeStep (some (a, b)) df = some ⟨df.headers, []⟩ := by
    show applyPred (fun d => dateLe a d && dateLe d b) df = some ⟨df.headers, []⟩
    rw [applyPred_some _ _ hv]
    simp only [keepRows, Option.some.injEq, Frame.mk.injEq]
    refine ⟨trivial, ?_⟩
    rw [List.filter_eq_nil_iff]
    intro r _
    unfold liftPred
    cases rowDate? df.headers r with
    | none => simp
    | some d =>
      intro hcon
      rw [Bool.and_eq_true] at hcon
      exact absurd (dateLe_trans a d b hcon.1 hcon.2) (by rw [hab]; exact Bool.false_ne_true)
  unfold filter_data
  rw [hr, Option.some_bind, monthStep_nil m _ hm hc, Option.some_bind,
    yearStep_nil y _ hy hc]

theorem C7_inverted_range_empty_witness :
    validDates dfSample = true ∧ dateLe ⟨2023, 5, 1⟩ ⟨2023, 1, 1⟩ = false ∧
      monthArgOk none = true ∧ yearArgOk none = true ∧
      filter_data dfSample (some (⟨2023, 5, 1⟩, ⟨2023, 1, 1⟩)) none none =
        some ⟨dfSample.headers, []⟩ :=
  ⟨by decide, by decide, rfl, rfl,
   C7_inverted_range_empty dfSample ⟨2023, 5, 1⟩ ⟨2023, 1, 1⟩ none none
     (by decide) (by decide) rfl rfl⟩

/-- C8: the three filters can be applied in any of the six orders with
the same result as the implemented order (date range, then month, then
year); a selection that raises does so in every order. -/
theorem C8_filter_order_irrelevant (df : Frame) (dr : Option (Date × Date))
    (m y : Option String) :
    ((rangeStep dr df).bind (yearStep y)).bind (monthStep m) = filter_data df dr m y ∧
    ((monthStep m df).bind (rangeStep dr)).bind (yearStep y) = filter_data df dr m y ∧
    ((monthStep m df).bind (yearStep y)).bind (rangeStep dr) = filter_data df dr m y ∧
    ((yearStep y df).bind (rangeStep dr)).bind (monthStep m) = filter_data df dr m y ∧
    ((yearStep y df).bind (monthStep m)).bind (rangeStep dr) = filter_data df dr m y := by
  have hR := rangeStep_shape dr
  have hM := monthStep_shape m
  have hY := yearStep_shape y
  have e2 : ((monthStep m df).bind (rangeStep dr)).bind (yearStep y) =
      filter_data df dr m y := by
    unfold filter_data
    rw [step_comm _ _ hM hR df]
  refine ⟨?_, e2, ?_, ?_, ?_⟩
  · unfold filter_data
    exact bind_step_comm _ _ hY hM (rangeStep dr df)
  · rw [bind_step_comm _ _ hY hR (monthStep m df)]
    exact e2
  · unfold filter_data
    rw [step_comm _ _ hY hR df, bind_step_comm _ _ hY hM (rangeStep dr df)]
  · rw [bind_step_comm _ _ hM hR (yearStep y df)]
    unfold filter_data
    rw [step_comm _ _ hY hR df, bind_step_comm _ _ hY hM (rangeStep dr df)]

/-- C10: a returning filter_data call selects a subsequence of the
input rows under unchanged headers: every output row is an input row,
relative order is preserved, and filtering a date-sorted table yields a
date-sorted table. -/
theorem C10_output_subsequence (df g : Frame) (dr : Option (Date × Date))
    (m y : Option String) (h : filter_data df dr m y = some g) :
    List.Sublist g.rows df.rows ∧ g.headers = df.headers ∧
      (sortedByDate df = true → sortedByDate g = true) := by
  have hR := rangeStep_shape dr
  have hM := monthStep_shape m
  have hY := yearStep_shape y
  unfold filter_data at h
  cases h1 : rangeStep dr df with
  | none =>
    rw [h1] at h
    cases h
  | some f1 =>
    rw [h1, Option.some_bind] at h
    cases h2 : monthStep m f1 with
    | none =>
      rw [h2] at h
      cases h
    | some f2 =>
      rw [h2, Option.some_bind] at h
      obtain ⟨hh1, hs1⟩ := step_result _ hR df f1 h1
      obtain ⟨hh2, hs2⟩ := step_result _ hM f1 f2 h2
      obtain ⟨hh3, hs3⟩ := step_result _ hY f2 g h
      have hsub : List.Sublist g.rows df.rows := (hs3.trans hs2).trans hs1
      have hhead : g.headers = df.headers := by rw [hh3, hh2, hh1]
      refine ⟨hsub, hhead, ?_⟩
      intro hsort
      unfold sortedByDate at hsort ⊢
      rw [Bool.and_eq_true] at hsort
      rw [Bool.and_eq_true]
      refine ⟨by rw [hhead]; exact hsort.1, ?_⟩
      have hp : (df.rows.map (dateKey df.headers)).Pairwise
          (fun a b => dateLe a b = true) :=
        (isSortedLe_iff_pairwise _).mp hsort.2
      have hgsub : List.Sublist (g.rows.map (dateKey df.headers))
          (df.rows.map (dateKey df.headers)) := hsub.map _
      have hg : (g.rows.map (dateKey g.headers)).Pairwise
          (fun a b => dateLe a b = true) := by
        rw [hhead]
        exact hp.sublist hgsub
      exact (isSortedLe_iff_pairwise _).mpr hg

theorem C10_output_subsequence_witness :
    filter_data dfTen (some (⟨2023, 1, 3⟩, ⟨2023, 1, 7⟩)) none none = some dfTenMid ∧
      (List.Sublist dfTenMid.rows dfTen.rows ∧ dfTenMid.headers = dfTen.headers ∧
        (sortedByDate dfTen = true → sortedByDate dfTenMid = true)) :=
  ⟨by decide,
   C10_output_subsequence dfTen dfTenMid (some (⟨2023, 1, 3⟩, ⟨2023, 1, 7⟩)) none none
     (by decide)⟩

/-! ### Loader lemmas -/

theorem rowLe_trans (hs : List String) (r1 r2 r3 : List Cell)
    (h1 : rowLe hs r1 r2 = true) (h2 : rowLe hs r2 r3 = true) :
    rowLe hs r1 r3 = true :=
  dateLe_trans _ _ _ h1 h2

theorem rowLe_total (hs : List String) (r1 r2 : List Cell) :
    (rowLe hs r1 r2 || rowLe hs r2 r1) = true :=
  dateLe_total _ _

theorem sortFrame?_sorted (f df : Frame) (h : sortFrame? f = some df) :
    sortedByDate df = true := by
  unfold sortFrame? at h
  by_cases hc : f.headers.contains "date" = true
  · rw [if_pos hc] at h
    cases h
    unfold sortedByDate
    rw [Bool.and_eq_true]
    refine ⟨hc, ?_⟩
    rw [isSortedLe_iff_pairwise]
    have hpw := pairwise_sortBy (rowLe f.headers) (rowLe_trans f.headers)
      (rowLe_total f.headers) f.rows
    exact List.pairwise_map.mpr hpw
  · rw [if_neg hc] at h
    cases h

/-- C2: every successfully loaded table is sorted non-decreasing by the
canonical date column. -/
theorem C2_loader_sorted (fs : String → Option Csv) (path : String) (df : Frame)
    (h : load_and_process_data fs path = some df) : sortedByDate df = true := by
  unfold load_and_process_data at h
  by_cases hp : path = ""
  · rw [if_pos hp] at h
    cases h
  · rw [if_neg hp] at h
    cases hfs : fs path with
    | none =>
      rw [hfs] at h
      cases h
    | some csv =>
      rw [hfs] at h
      dsimp only at h
      cases hd : addDateCol? (rawFrame csv) with
      | none =>
        rw [hd] at h
        cases h
      | some f =>
        rw [hd] at h
        exact sortFrame?_sorted _ _ h

theorem C2_loader_sorted_witness :
    load_and_process_data fsTen "prices.csv" = some dfTen ∧ sortedByDate dfTen = true :=
  ⟨by decide, C2_loader_sorted fsTen "prices.csv" dfTen (by decide)⟩

/-! ### Header bookkeeping for the loader -/

theorem setCol_headers (f : Frame) (n : String) (cs : List Cell) :
    (setCol f n cs).headers =
      if f.headers.contains n = true then f.headers else f.headers ++ [n] := by
  unfold setCol
  by_cases h : f.headers.contains n = true
  · rw [if_pos h, if_pos h]
  · rw [if_neg h, if_neg h]

theorem dropCol_headers (f : Frame) (n : String) :
    (dropCol f n).headers = f.headers.filter (fun h => h != n) := rfl

theorem mem_setCol_self (f : Frame) (n : String) (cs : List Cell) :
    n ∈ (setCol f n cs).headers := by
  rw [setCol_headers]
  by_cases h : f.headers.contains n = true
  · rw [if_pos h]
    exact List.mem_of_elem_eq_true h
  · rw [if_neg h]
    exact List.mem_append_right _ (List.mem_singleton.mpr rfl)

theorem mem_setCol_of_mem (f : Frame) (n : String) (cs : List Cell) (x : String)
    (hx : x ∈ f.headers) : x ∈ (setCol f n cs).headers := by
  rw [setCol_headers]
  split
  · exact hx
  · exact List.mem_append_left _ hx

theorem not_mem_setCol (f : Frame) (n : String) (cs : List Cell) (x : String)
    (hx : x ∉ f.headers) (hxn : x ≠ n) : x ∉ (setCol f n cs).headers := by
  rw [setCol_headers]
  split
  · exact hx
  · intro hmem
    rcases List.mem_append.mp hmem with h | h
    · exact hx h
    · exact hxn (List.mem_singleton.mp h)

theorem mem_dropCol (f : Frame) (n x : String) (hxn : x ≠ n) :
    x ∈ (dropCol f n).headers ↔ x ∈ f.headers := by
  rw [dropCol_headers, List.mem_filter]
  constructor
  · exact fun h => h.1
  · exact fun h => ⟨h, bne_iff_ne.mpr hxn⟩

theorem not_mem_dropCol_self (f : Frame) (n : String) :
    n ∉ (dropCol f n).headers := by
  rw [dropCol_headers]
  intro h
  have h2 := (List.mem_filter.mp h).2
  rw [bne_self_eq_false] at h2
  cases h2

theorem filter_headers_setCol_date (f : Frame) (cs : List Cell) :
    (setCol f "date" cs).headers.filter (fun h => strLower h == "price") =
      f.headers.filter (fun h => strLower h == "price") := by
  rw [setCol_headers]
  split
  · rfl
  · rw [List.filter_append]
    have he : List.filter (fun h => strLower h == "price") ["date"] = [] := by decide
    rw [he, List.append_nil]

theorem filter_headers_dropCol_price (f : Frame) (c : String)
    (hcp : ∀ h : String, (strLower h == "price") = true → h ≠ c) :
    (dropCol f c).headers.filter (fun h => strLower h == "price") =
      f.headers.filter (fun h => strLower h == "price") := by
  rw [dropCol_headers, List.filter_filter]
  refine List.filter_congr ?_
  intro h _
  rcases Bool.eq_false_or_eq_true (strLower h == "price") with hp | hp
  · rw [hp, Bool.true_and]
    exact bne_iff_ne.mpr (hcp h hp)
  · rw [hp, Bool.false_and]

theorem sortFrame?_eq (f df : Frame) (h : sortFrame? f = some df) :
    df.headers = f.headers ∧ df.rows.Perm f.rows := by
  unfold sortFrame? at h
  by_cases hc : f.headers.contains "date" = true
  · rw [if_pos hc] at h
    cases h
    exact ⟨rfl, sortBy_perm _ _⟩
  · rw [if_neg hc] at h
    cases h

theorem addPriceCol_headers_facts (f : Frame) (p : String) (ps : List String)
    (hpf : f.headers.filter (fun h => strLower h == "price") = p :: ps) :
    "price" ∈ (addPriceCol f).headers ∧
      (∀ x, x ∈ f.headers → x ≠ p → x ∈ (addPriceCol f).headers) ∧
      (∀ x, x ∉ f.headers → x ≠ "price" → x ∉ (addPriceCol f).headers) ∧
      (p ≠ "price" → p ∉ (addPriceCol f).headers) := by
  unfold addPriceCol
  rw [hpf]
  dsimp only
  by_cases hp : p = "price"
  · rw [if_neg (by simp [hp])]
    subst hp
    refine ⟨mem_setCol_self _ _ _, ?_, ?_, ?_⟩
    · intro x hx _
      exact mem_setCol_of_mem _ _ _ _ hx
    · intro x hx hxp
      exact not_mem_setCol _ _ _ _ hx hxp
    · intro hcon
      exact absurd rfl hcon
  · rw [if_pos hp]
    refine ⟨?_, ?_, ?_, fun _ => ?_⟩
    · rw [mem_dropCol _ _ _ (fun he => hp he.symm)]
      exact mem_setCol_self _ _ _
    · intro x hx hxp
      rw [mem_dropCol _ _ _ hxp]
      exact mem_setCol_of_mem _ _ _ _ hx
    · intro x hx hxpr hmem
      by_cases hxp : x = p
      · subst hxp
        exact not_mem_dropCol_self _ _ hmem
      · rw [mem_dropCol _ _ _ hxp] at hmem
        exact not_mem_setCol _ _ _ _ hx hxpr hmem
    · exact not_mem_dropCol_self _ _

theorem addDateCol?_headers_facts (f f1 : Frame) (c : String) (cs2 : List String)
    (hdf : f.headers.filter (fun h => strLower h == "date") = c :: cs2)
    (h : addDateCol? f = some f1) :
    "date" ∈ f1.headers ∧ (c ≠ "date" → c ∉ f1.headers) ∧
      f1.headers.filter (fun h => strLower h == "price") =
        f.headers.filter (fun h => strLower h == "price") := by
  have hcd : (strLower c == "date") = true := by
    have hmem : c ∈ f.headers.filter (fun h => strLower h == "date") := by
      rw [hdf]
      exact List.mem_cons_self _ _
    exact (List.mem_filter.mp hmem).2
  have hcnp : ∀ h2 : String, (strLower h2 == "price") = true → h2 ≠ c := by
    intro h2 hp2 heq
    subst heq
    have e1 := eq_of_beq hcd
    have e2 := eq_of_beq hp2
    rw [e1] at e2
    exact absurd e2 (by decide)
  unfold addDateCol? at h
  rw [hdf] at h
  dsimp only at h
  cases hds : cellsDates? (getCol c f) with
  | none =>
    rw [hds] at h
    cases h
  | some ds =>
    rw [hds] at h
    dsimp only at h
    by_cases hc : c = "date"
    · rw [if_neg (by simp [hc])] at h
      cases h
      subst hc
      exact ⟨mem_setCol_self _ _ _, fun hcon => absurd rfl hcon,
        filter_headers_setCol_date _ _⟩
    · rw [if_pos hc] at h
      cases h
      refine ⟨?_, fun _ => ?_, ?_⟩
      · rw [mem_dropCol _ _ _ (fun he => hc he.symm)]
        exact mem_setCol_self _ _ _
      · exact not_mem_dropCol_self _ _
      · rw [filter_headers_dropCol_price _ _ hcnp, filter_headers_setCol_date _ _]

/-- C4 counterexample: the claim fails in the first-column fallback.
The file with single column Day holding dates loads successfully, but
the returned table retains the source column Day and, the file having
no price-named header, contains no price column either. -/
theorem C4_counterexample :
    load_and_process_data fsDay "series.csv" = some dfDay ∧
      ¬ ("price" ∈ dfDay.headers ∧ "Day" ∉ dfDay.headers) := by
  constructor
  · decide
  · intro hcon
    exact hcon.2 (by decide)

/-- C4 (amended): when the trimmed headers do contain one that
case-insensitively equals date and one that equals price, the loaded
table carries the canonical date and price columns and the
differently-named source columns are gone.  (In the no-date-header
fallback the first column is used as the date source but retained, and
without a price header no price column is created: see the
counterexample.) -/
theorem C4_canonical_columns (fs : String → Option Csv) (path : String) (csv : Csv)
    (df : Frame) (c : String) (cs2 : List String) (p : String) (ps : List String)
    (hfs : fs path = some csv)
    (hdc : (rawFrame csv).headers.filter (fun h => strLower h == "date") = c :: cs2)
    (hpc : (rawFrame csv).headers.filter (fun h => strLower h == "price") = p :: ps)
    (hld : load_and_process_data fs path = some df) :
    "date" ∈ df.headers ∧ "price" ∈ df.headers ∧
      (c ≠ "date" → c ∉ df.headers) ∧ (p ≠ "price" → p ∉ df.headers) := by
  have hpp : (strLower p == "price") = true := by
    have hmem : p ∈ (rawFrame csv).headers.filter (fun h => strLower h == "price") := by
      rw [hpc]
      exact List.mem_cons_self _ _
    exact (List.mem_filter.mp hmem).2
  have hdatep : "date" ≠ p := by
    intro he
    have e2 := eq_of_beq hpp
    rw [← he] at e2
    exact absurd e2 (by decide)
  have hcc : (strLower c == "date") = true := by
    have hmem : c ∈ (rawFrame csv).headers.filter (fun h => strLower h == "date") := by
      rw [hdc]
      exact List.mem_cons_self _ _
    exact (List.mem_filter.mp hmem).2
  have hcpr : c ≠ "price" := by
    intro he
    have e1 := eq_of_beq hcc
    rw [he] at e1
    exact absurd e1 (by decide)
  unfold load_and_process_data at hld
  by_cases hpath : path = ""
  · rw [if_pos hpath] at hld
    cases hld
  · rw [if_neg hpath, hfs] at hld
    dsimp only at hld
    cases hd : addDateCol? (rawFrame csv) with
    | none =>
      rw [hd] at hld
      cases hld
    | some f1 =>
      rw [hd] at hld
      obtain ⟨hdate1, hcnot1, hfilter1⟩ := addDateCol?_headers_facts _ _ _ _ hdc hd
      have hpf1 : f1.headers.filter (fun h => strLower h == "price") = p :: ps := by
        rw [hfilter1]
        exact hpc
      obtain ⟨hpr2, hmono2, hnot2, hpnot2⟩ := addPriceCol_headers_facts f1 p ps hpf1
      obtain ⟨hhead, _⟩ := sortFrame?_eq _ _ hld
      refine ⟨?_, ?_, ?_, ?_⟩
      · rw [hhead]
        exact hmono2 "date" hdate1 hdatep
      · rw [hhead]
        exact hpr2
      · intro hcdne
        rw [hhead]
        exact hnot2 c (hcnot1 hcdne) hcpr
      · intro hppne
        rw [hhead]
        exact hpnot2 hppne

theorem C4_canonical_columns_witness :
    fsTen "prices.csv" = some csvTen ∧
      (rawFrame csvTen).headers.filter (fun h => strLower h == "date") = ["Date"] ∧
      (rawFrame csvTen).headers.filter (fun h => strLower h == "price") = ["Price"] ∧
      ("date" ∈ dfTen.headers ∧ "price" ∈ dfTen.headers ∧
        ("Date" ≠ "date" → "Date" ∉ dfTen.headers) ∧
        ("Price" ≠ "price" → "Price" ∉ dfTen.headers)) :=
  ⟨rfl, by decide, by decide,
   C4_canonical_columns fsTen "prices.csv" csvTen dfTen "Date" [] "Price" []
     rfl (by decide) (by decide) (by decide)⟩

/-! ### Rectangularity and column contents -/

theorem frameWF_length (f : Frame) (hwf : frameWF f = true) (r : List Cell)
    (hr : r ∈ f.rows) : r.length = f.headers.length := by
  unfold frameWF at hwf
  rw [List.all_eq_true] at hwf
  exact eq_of_beq (hwf r hr)

theorem frameWF_rawFrame (csv : Csv) (h : csvWF csv = true) :
    frameWF (rawFrame csv) = true := by
  unfold csvWF at h
  unfold frameWF rawFrame
  rw [List.all_eq_true] at h ⊢
  intro r hr
  dsimp only at hr
  obtain ⟨r0, hr0, rfl⟩ := List.mem_map.mp hr
  have h0 := eq_of_beq (h r0 hr0)
  show ((List.map Cell.str r0).length == (List.map strTrim csv.headers).length) = true
  rw [List.length_map, List.length_map, h0]
  exact beq_self_eq_true _

theorem setCells_length (n : String) (c : Cell) :
    ∀ (hs : List String) (r : List Cell), (setCells n c hs r).length = r.length := by
  intro hs
  induction hs with
  | nil => intro r; cases r <;> rfl
  | cons h hs ih =>
    intro r
    cases r with
    | nil => rfl
    | cons x xs => simp [setCells, ih xs]

theorem dropCells_length (n : String) :
    ∀ (hs : List String) (r : List Cell), r.length = hs.length →
      (dropCells n hs r).length = (hs.filter (fun h => h != n)).length := by
  intro hs
  induction hs with
  | nil =>
    intro r hlen
    have : r = [] := List.eq_nil_of_length_eq_zero hlen
    subst this
    rfl
  | cons h hs ih =>
    intro r hlen
    cases r with
    | nil => simp at hlen
    | cons x xs =>
      have hlen2 : xs.length = hs.length := by simpa using hlen
      by_cases he : h = n
      · simp [dropCells, he, List.filter_cons, ih xs hlen2]
      · simp [dropCells, he, List.filter_cons, bne_iff_ne, ih xs hlen2]

theorem all_zipWith (g : α → β → γ) (pr : γ → Bool) :
    ∀ (as : List α) (bs : List β),
      (∀ a ∈ as, ∀ b ∈ bs, pr (g a b) = true) →
      (List.zipWith g as bs).all pr = true := by
  intro as
  induction as with
  | nil => intro bs _; rfl
  | cons a as ih =>
    intro bs h
    cases bs with
    | nil => rfl
    | cons b bs =>
      rw [List.zipWith_cons_cons, List.all_cons, Bool.and_eq_true]
      refine ⟨h a (List.mem_cons_self _ _) b (List.mem_cons_self _ _), ?_⟩
      exact ih bs fun a2 ha2 b2 hb2 =>
        h a2 (List.mem_cons_of_mem _ ha2) b2 (List.mem_cons_of_mem _ hb2)

theorem frameWF_setCol (f : Frame) (n : String) (cs : List Cell)
    (hwf : frameWF f = true) : frameWF (setCol f n cs) = true := by
  unfold setCol
  by_cases hc : f.headers.contains n = true
  · rw [if_pos hc]
    unfold frameWF
    dsimp only
    apply all_zipWith
    intro r hr c _
    rw [setCells_length]
    rw [frameWF_length f hwf r hr]
    exact beq_self_eq_true _
  · rw [if_neg hc]
    unfold frameWF
    dsimp only
    apply all_zipWith
    intro r hr c _
    have h0 := frameWF_length f hwf r hr
    simp [h0]

theorem frameWF_dropCol (f : Frame) (n : String) (hwf : frameWF f = true) :
    frameWF (dropCol f n) = true := by
  unfold dropCol frameWF
  dsimp only
  rw [List.all_eq_true]
  intro r hr
  obtain ⟨r0, hr0, rfl⟩ := List.mem_map.mp hr
  rw [dropCells_length n f.headers r0 (frameWF_length f hwf r0 hr0)]
  exact beq_self_eq_true _

theorem setCol_rows_length (f : Frame) (n : String) (cs : List Cell)
    (hcs : cs.length = f.rows.length) :
    (setCol f n cs).rows.length = f.rows.length := by
  unfold setCol
  split <;> (dsimp only; rw [List.length_zipWith, hcs, Nat.min_self])

theorem dropCol_rows_length (f : Frame) (n : String) :
    (dropCol f n).rows.length = f.rows.length := by
  unfold dropCol
  dsimp only
  rw [List.length_map]

theorem getCol_length (n : String) (f : Frame) :
    (getCol n f).length = f.rows.length := by
  unfold getCol
  rw [List.length_map]

theorem cellsDates?_length : ∀ (l : List Cell) (ds : List Date),
    cellsDates? l = some ds → ds.length = l.length := by
  intro l
  induction l with
  | nil =>
    intro ds h
    cases h
    rfl
  | cons c cs ih =>
    intro ds h
    unfold cellsDates? at h
    cases hd : cellDate? c with
    | none =>
      rw [hd] at h
      cases h
    | some d =>
      rw [hd] at h
      cases hds : cellsDates? cs with
      | none =>
        rw [hds] at h
        cases h
      | some ds2 =>
        rw [hds] at h
        cases h
        simp [ih ds2 hds]

theorem countP_pointwise (l : List α) (p q : α → Bool) (h : ∀ a ∈ l, p a = q a) :
    l.countP p = l.countP q := by
  induction l with
  | nil => rfl
  | cons a t ih =>
    rw [List.countP_cons, List.countP_cons, h a (List.mem_cons_self a t),
      ih fun b hb => h b (List.mem_cons_of_mem a hb)]

theorem getCell?_setCells_ne (m n : String) (hmn : m ≠ n) (c : Cell) :
    ∀ (hs : List String) (r : List Cell),
      getCell? m hs (setCells n c hs r) = getCell? m hs r := by
  intro hs
  induction hs with
  | nil => intro r; cases r <;> rfl
  | cons h hs ih =>
    intro r
    cases r with
    | nil => rfl
    | cons x xs =>
      by_cases he : h = n
      · have hnm : ¬ n = m := fun h2 => hmn h2.symm
        simp [setCells, getCell?, he, hnm, ih xs]
      · by_cases hm : h = m
        · simp [setCells, getCell?, he, hm, hmn, ih xs]
        · simp [setCells, getCell?, he, hm, ih xs]

theorem getCell?_setCells_self (n : String) (c : Cell) :
    ∀ (hs : List String) (r : List Cell), n ∈ hs → r.length = hs.length →
      getCell? n hs (setCells n c hs r) = some c := by
  intro hs
  induction hs with
  | nil =>
    intro r hmem _
    cases hmem
  | cons h hs ih =>
    intro r hmem hlen
    cases r with
    | nil => simp at hlen
    | cons x xs =>
      have hlen2 : xs.length = hs.length := by simpa using hlen
      by_cases he : h = n
      · simp [setCells, getCell?, he]
      · have hmem2 : n ∈ hs := by
          rcases List.mem_cons.mp hmem with h1 | h1
          · exact absurd h1.symm he
          · exact h1
        simp [setCells, getCell?, he, ih xs hmem2 hlen2]

theorem getCell?_append_ne (m n : String) (hmn : m ≠ n) (c : Cell) :
    ∀ (hs : List String) (r : List Cell), r.length = hs.length →
      getCell? m (hs ++ [n]) (r ++ [c]) = getCell? m hs r := by
  intro hs
  induction hs with
  | nil =>
    intro r hlen
    have : r = [] := List.eq_nil_of_length_eq_zero hlen
    subst this
    have hnm : ¬ n = m := fun h2 => hmn h2.symm
    simp [getCell?, hnm]
  | cons h hs ih =>
    intro r hlen
    cases r with
    | nil => simp at hlen
    | cons x xs =>
      have hlen2 : xs.length = hs.length := by simpa using hlen
      by_cases hm : h = m
      · simp [getCell?, hm]
      · simp [getCell?, hm, ih xs hlen2]

theorem getCell?_append_self (n : String) (c : Cell) :
    ∀ (hs : List String) (r : List Cell), n ∉ hs → r.length = hs.length →
      getCell? n (hs ++ [n]) (r ++ [c]) = some c := by
  intro hs
  induction hs with
  | nil =>
    intro r _ hlen
    have : r = [] := List.eq_nil_of_length_eq_zero hlen
    subst this
    simp [getCell?]
  | cons h hs ih =>
    intro r hmem hlen
    cases r with
    | nil => simp at hlen
    | cons x xs =>
      have hlen2 : xs.length = hs.length := by simpa using hlen
      have hne : ¬ h = n := fun h2 => hmem (h2 ▸ List.mem_cons_self h hs)
      have hmem2 : n ∉ hs := fun h2 => hmem (List.mem_cons_of_mem h h2)
      simp [getCell?, hne, ih xs hmem2 hlen2]

theorem getCell?_dropCells_ne (m n : String) (hmn : m ≠ n) :
    ∀ (hs : List String) (r : List Cell), r.length = hs.length →
      getCell? m (hs.filter (fun h => h != n)) (dropCells n hs r) =
        getCell? m hs r := by
  intro hs
  induction hs with
  | nil =>
    intro r hlen
    have : r = [] := List.eq_nil_of_length_eq_zero hlen
    subst this
    rfl
  | cons h hs ih =>
    intro r hlen
    cases r with
    | nil => simp at hlen
    | cons x xs =>
      have hlen2 : xs.length = hs.length := by simpa using hlen
      by_cases he : h = n
      · have hnm : ¬ n = m := fun h2 => hmn h2.symm
        simp [dropCells, List.filter_cons, he, getCell?, hnm, ih xs hlen2]
      · by_cases hm : h = m
        · simp [dropCells, List.filter_cons, he, bne_iff_ne, getCell?, hm, hmn]
        · simp [dropCells, List.filter_cons, he, bne_iff_ne, getCell?, hm, ih xs hlen2]

theorem map_zipWith_eq_left (g : α → β → γ) (k : γ → δ) (k2 : α → δ) :
    ∀ (as : List α) (bs : List β),
      (∀ a ∈ as, ∀ b, k (g a b) = k2 a) → as.length = bs.length →
      (List.zipWith g as bs).map k = as.map k2 := by
  intro as
  induction as with
  | nil => intro bs _ _; rfl
  | cons a as ih =>
    intro bs h hlen
    cases bs with
    | nil => simp at hlen
    | cons b bs =>
      rw [List.zipWith_cons_cons, List.map_cons, List.map_cons,
        h a (List.mem_cons_self _ _) b,
        ih bs (fun a2 ha2 b2 => h a2 (List.mem_cons_of_mem _ ha2) b2) (by simpa using hlen)]

theorem map_zipWith_eq_right (g : α → β → γ) (k : γ → β) :
    ∀ (as : List α) (bs : List β),
      (∀ a ∈ as, ∀ b ∈ bs, k (g a b) = b) → as.length = bs.length →
      (List.zipWith g as bs).map k = bs := by
  intro as
  induction as with
  | nil =>
    intro bs _ hlen
    have : bs = [] := List.eq_nil_of_length_eq_zero hlen.symm
    subst this
    rfl
  | cons a as ih =>
    intro bs h hlen
    cases bs with
    | nil => simp at hlen
    | cons b bs =>
      rw [List.zipWith_cons_cons, List.map_cons,
        h a (List.mem_cons_self _ _) b (List.mem_cons_self _ _),
        ih bs (fun a2 ha2 b2 hb2 =>
          h a2 (List.mem_cons_of_mem _ ha2) b2 (List.mem_cons_of_mem _ hb2))
          (by simpa using hlen)]

theorem getCol_setCol_ne (f : Frame) (m n : String) (hmn : m ≠ n) (cs : List Cell)
    (hcs : cs.length = f.rows.length) (hwf : frameWF f = true) :
    getCol m (setCol f n cs) = getCol m f := by
  unfold setCol
  by_cases hc : f.headers.contains n = true
  · rw [if_pos hc]
    unfold getCol
    dsimp only
    apply map_zipWith_eq_left
    · intro r hr c
      unfold getCellD
      rw [getCell?_setCells_ne m n hmn c f.headers r]
    · exact hcs.symm
  · rw [if_neg hc]
    unfold getCol
    dsimp only
    apply map_zipWith_eq_left
    · intro r hr c
      unfold getCellD
      rw [getCell?_append_ne m n hmn c f.headers r (frameWF_length f hwf r hr)]
    · exact hcs.symm

theorem getCol_setCol_self (f : Frame) (n : String) (cs : List Cell)
    (hcs : cs.length = f.rows.length) (hwf : frameWF f = true) :
    getCol n (setCol f n cs) = cs := by
  unfold setCol
  by_cases hc : f.headers.contains n = true
  · rw [if_pos hc]
    unfold getCol
    dsimp only
    apply map_zipWith_eq_right
    · intro r hr c _
      unfold getCellD
      rw [getCell?_setCells_self n c f.headers r (List.mem_of_elem_eq_true hc)
        (frameWF_length f hwf r hr)]
      rfl
    · exact hcs.symm
  · rw [if_neg hc]
    unfold getCol
    dsimp only
    apply map_zipWith_eq_right
    · intro r hr c _
      unfold getCellD
      have hnotmem : n ∉ f.headers := fun hm => hc (List.elem_eq_true_of_mem hm)
      rw [getCell?_append_self n c f.headers r hnotmem (frameWF_length f hwf r hr)]
      rfl
    · exact hcs.symm

theorem getCol_dropCol_ne (f : Frame) (m n : String) (hmn : m ≠ n)
    (hwf : frameWF f = true) : getCol m (dropCol f n) = getCol m f := by
  unfold getCol dropCol
  dsimp only
  rw [List.map_map]
  apply List.map_congr_left
  intro r hr
  show getCellD m (List.filter (fun h => h != n) f.headers)
      (dropCells n f.headers r) = getCellD m f.headers r
  unfold getCellD
  rw [getCell?_dropCells_ne m n hmn f.headers r (frameWF_length f hwf r hr)]

/-- The date-normalization step does not disturb any price-named
column, keeps the row count, and preserves rectangularity. -/
theorem addDateCol?_col_facts (f f1 : Frame) (m : String)
    (hm : (strLower m == "price") = true)
    (hwf : frameWF f = true) (h : addDateCol? f = some f1) :
    frameWF f1 = true ∧ f1.rows.length = f.rows.length ∧ getCol m f1 = getCol m f := by
  have hmdate : m ≠ "date" := by
    intro he
    have e := eq_of_beq hm
    rw [he] at e
    exact absurd e (by decide)
  unfold addDateCol? at h
  cases hdf : f.headers.filter (fun h2 => strLower h2 == "date") with
  | cons c cs2 =>
    rw [hdf] at h
    dsimp only at h
    have hcd : (strLower c == "date") = true := by
      have hmem : c ∈ f.headers.filter (fun h2 => strLower h2 == "date") := by
        rw [hdf]
        exact List.mem_cons_self _ _
      exact (List.mem_filter.mp hmem).2
    have hmc : m ≠ c := by
      intro he
      subst he
      have e1 := eq_of_beq hm
      have e2 := eq_of_beq hcd
      rw [e1] at e2
      exact absurd e2 (by decide)
    cases hds : cellsDates? (getCol c f) with
    | none =>
      rw [hds] at h
      cases h
    | some ds =>
      rw [hds] at h
      dsimp only at h
      have hdl : (ds.map Cell.date).length = f.rows.length := by
        rw [List.length_map, cellsDates?_length _ _ hds, getCol_length]
      have hwfg : frameWF (setCol f "date" (ds.map Cell.date)) = true :=
        frameWF_setCol _ _ _ hwf
      have hgl : (setCol f "date" (ds.map Cell.date)).rows.length = f.rows.length :=
        setCol_rows_length _ _ _ hdl
      have hgc : getCol m (setCol f "date" (ds.map Cell.date)) = getCol m f :=
        getCol_setCol_ne f m "date" hmdate _ hdl hwf
      by_cases hc : c = "date"
      · rw [if_neg (by simp [hc])] at h
        cases h
        exact ⟨hwfg, hgl, hgc⟩
      · rw [if_pos hc] at h
        cases h
        refine ⟨frameWF_dropCol _ _ hwfg, ?_, ?_⟩
        · rw [dropCol_rows_length, hgl]
        · rw [getCol_dropCol_ne _ m c hmc hwfg, hgc]
  | nil =>
    rw [hdf] at h
    dsimp only at h
    cases hh : f.headers with
    | nil =>
      rw [hh] at h
      cases h
    | cons h0 hs0 =>
      rw [hh] at h
      dsimp only at h
      cases hds : cellsDates? (getCol h0 f) with
      | none =>
        rw [hds] at h
        cases h
      | some ds =>
        rw [hds] at h
        cases h
        have hdl : (ds.map Cell.date).length = f.rows.length := by
          rw [List.length_map, cellsDates?_length _ _ hds, getCol_length]
        exact ⟨frameWF_setCol _ _ _ hwf, setCol_rows_length _ _ _ hdl,
          getCol_setCol_ne f m "date" hmdate _ hdl hwf⟩

/-- The date-normalization step leaves the list of price-named headers
unchanged, in both the detected-header and the fallback branch. -/
theorem addDateCol?_price_filter (f f1 : Frame) (h : addDateCol? f = some f1) :
    f1.headers.filter (fun h2 => strLower h2 == "price") =
      f.headers.filter (fun h2 => strLower h2 == "price") := by
  unfold addDateCol? at h
  cases hdf : f.headers.filter (fun h2 => strLower h2 == "date") with
  | cons c cs2 =>
    rw [hdf] at h
    dsimp only at h
    have hcd : (strLower c == "date") = true := by
      have hmem : c ∈ f.headers.filter (fun h2 => strLower h2 == "date") := by
        rw [hdf]
        exact List.mem_cons_self _ _
      exact (List.mem_filter.mp hmem).2
    have hcnp : ∀ h2 : String, (strLower h2 == "price") = true → h2 ≠ c := by
      intro h2 hp2 heq
      subst heq
      have e1 := eq_of_beq hcd
      have e2 := eq_of_beq hp2
      rw [e1] at e2
      exact absurd e2 (by decide)
    cases hds : cellsDates? (getCol c f) with
    | none =>
      rw [hds] at h
      cases h
    | some ds =>
      rw [hds] at h
      dsimp only at h
      by_cases hc : c = "date"
      · rw [if_neg (by simp [hc])] at h
        cases h
        exact filter_headers_setCol_date _ _
      · rw [if_pos hc] at h
        cases h
        rw [filter_headers_dropCol_price _ _ hcnp, filter_headers_setCol_date _ _]
  | nil =>
    rw [hdf] at h
    dsimp only at h
    cases hh : f.headers with
    | nil =>
      rw [hh] at h
      cases h
    | cons h0 hs0 =>
      rw [hh] at h
      dsimp only at h
      cases hds : cellsDates? (getCol h0 f) with
      | none =>
        rw [hds] at h
        cases h
      | some ds =>
        rw [hds] at h
        cases h
        rw [filter_headers_setCol_date, hh]

/-- The price-normalization step installs the coerced source column as
the canonical price column and keeps the row count. -/
theorem addPriceCol_price_col (f : Frame) (p : String) (ps : List String)
    (hpf : f.headers.filter (fun h2 => strLower h2 == "price") = p :: ps)
    (hwf : frameWF f = true) :
    getCol "price" (addPriceCol f) =
        (getCol p f).map (fun c => Cell.num (toNumeric? c)) ∧
      (addPriceCol f).rows.length = f.rows.length := by
  unfold addPriceCol
  rw [hpf]
  dsimp only
  have hlen : ((getCol p f).map (fun c => Cell.num (toNumeric? c))).length =
      f.rows.length := by
    rw [List.length_map, getCol_length]
  by_cases hp : p = "price"
  · rw [if_neg (by simp [hp])]
    subst hp
    exact ⟨getCol_setCol_self f "price" _ hlen hwf, setCol_rows_length _ _ _ hlen⟩
  · rw [if_pos hp]
    have hwfg := frameWF_setCol f "price"
      ((getCol p f).map (fun c => Cell.num (toNumeric? c))) hwf
    constructor
    · rw [getCol_dropCol_ne _ "price" p (fun he => hp he.symm) hwfg]
      exact getCol_setCol_self f "price" _ hlen hwf
    · rw [dropCol_rows_length, setCol_rows_length _ _ _ hlen]

theorem cellNumBeqNone (q : Option Rat) : (Cell.num q == Cell.num none) = q.isNone := by
  cases q with
  | none => simp
  | some x =>
    show (Cell.num (some x) == Cell.num none) = false
    exact beq_eq_false_iff_ne.mpr (by simp)

/-- C6: on a rectangular file that loads successfully with a detected
price column, all rows survive the load, and the missing prices in the
result are exactly the source price cells that fail numeric coercion:
a bad cell becomes missing instead of failing the load. -/
theorem C6_price_coercion (fs : String → Option Csv) (path : String) (csv : Csv)
    (df : Frame) (p : String) (ps : List String)
    (hfs : fs path = some csv) (hwf : csvWF csv = true)
    (hpc : (rawFrame csv).headers.filter (fun h2 => strLower h2 == "price") = p :: ps)
    (hld : load_and_process_data fs path = some df) :
    df.rows.length = csv.rows.length ∧
      (getCol "price" df).countP (fun x => x == Cell.num none) =
        (priceSourceCol csv p).countP (fun x => (toNumeric? x).isNone) := by
  have hpp : (strLower p == "price") = true := by
    have hmem : p ∈ (rawFrame csv).headers.filter (fun h2 => strLower h2 == "price") := by
      rw [hpc]
      exact List.mem_cons_self _ _
    exact (List.mem_filter.mp hmem).2
  unfold load_and_process_data at hld
  by_cases hpath : path = ""
  · rw [if_pos hpath] at hld
    cases hld
  · rw [if_neg hpath, hfs] at hld
    dsimp only at hld
    cases hd : addDateCol? (rawFrame csv) with
    | none =>
      rw [hd] at hld
      cases hld
    | some f1 =>
      rw [hd] at hld
      have hwf0 : frameWF (rawFrame csv) = true := frameWF_rawFrame csv hwf
      obtain ⟨hwf1, hlen1, hcol1⟩ := addDateCol?_col_facts _ _ p hpp hwf0 hd
      have hpf1 : f1.headers.filter (fun h2 => strLower h2 == "price") = p :: ps := by
        rw [addDateCol?_price_filter _ _ hd]
        exact hpc
      obtain ⟨hcol2, hlen2⟩ := addPriceCol_price_col f1 p ps hpf1 hwf1
      obtain ⟨hhead3, hperm3⟩ := sortFrame?_eq _ _ hld
      constructor
      · rw [hperm3.length_eq, hlen2, hlen1]
        show (rawFrame csv).rows.length = csv.rows.length
        unfold rawFrame
        dsimp only
        rw [List.length_map]
      · have hcoldf : getCol "price" df =
            df.rows.map (getCellD "price" (addPriceCol f1).headers) := by
          unfold getCol
          rw [hhead3]
        have hmapperm : (df.rows.map (getCellD "price" (addPriceCol f1).headers)).Perm
            (getCol "price" (addPriceCol f1)) := hperm3.map _
        calc (getCol "price" df).countP (fun x => x == Cell.num none)
            = (getCol "price" (addPriceCol f1)).countP (fun x => x == Cell.num none) := by
              rw [hcoldf]
              exact hmapperm.countP_eq _
          _ = ((getCol p f1).map (fun c => Cell.num (toNumeric? c))).countP
              (fun x => x == Cell.num none) := by rw [hcol2]
          _ = (getCol p f1).countP
              ((fun x => x == Cell.num none) ∘ (fun c => Cell.num (toNumeric? c))) :=
              List.countP_map _ _ _
          _ = (getCol p f1).countP (fun x => (toNumeric? x).isNone) :=
              countP_pointwise _ _ _ (fun a _ => cellNumBeqNone (toNumeric? a))
          _ = (priceSourceCol csv p).countP (fun x => (toNumeric? x).isNone) := by
              rw [hcol1]
              rfl

theorem C6_price_coercion_witness :
    fsTen "prices.csv" = some csvTen ∧ csvWF csvTen = true ∧
      (rawFrame csvTen).headers.filter (fun h2 => strLower h2 == "price") = ["Price"] ∧
      (dfTen.rows.length = csvTen.rows.length ∧
        (getCol "price" dfTen).countP (fun x => x == Cell.num none) =
          (priceSourceCol csvTen "Price").countP (fun x => (toNumeric? x).isNone)) ∧
      dfTen.rows.length = 10 ∧
      (getCol "price" dfTen).countP (fun x => x == Cell.num none) = 1 :=
  ⟨rfl, by decide, by decide,
   C6_price_coercion fsTen "prices.csv" csvTen dfTen "Price" []
     rfl (by decide) (by decide) (by decide),
   by decide, by decide⟩

end Analyzer
